import Mathlib

/-!
Verification development for the working-days scaler.

The Rust sources embedded here:
- `src/working_days.rs`: the calendar index (`WorkingDays`), its construction
  (`build`, `build_with_range`, `process_working_days`) and query
  (`working_days_mtd`).
- `src/handler.rs`: the metadata validation and activation evaluation
  (`is_active`, `read_nth_working_day_arg`, `read_time`, `read_target_size`,
  `current_nth_working_day`, `current_time_between`).

Calendar dates are embedded as year/month/day triples in the proleptic
Gregorian calendar, with `numDaysFromCE` mirroring chrono's
`num_days_from_ce` (day 1 = 0001-01-01). The process wall clock is injected
as an explicit date/time-of-day argument, as the spec directs for
deterministic evaluation.
-/

namespace WDS

/-- A calendar day, mirroring chrono's `Date<FixedOffset>` date component
(the fixed offset is process-wide and carried separately). -/
structure CDate where
  y : Nat
  m : Nat
  d : Nat
deriving DecidableEq, Repr

/-- Gregorian leap-year rule. -/
def isLeap (y : Nat) : Bool :=
  (y % 4 == 0 && y % 100 != 0) || y % 400 == 0

/-- Number of days in a month of a given year. -/
def daysInMonth (y m : Nat) : Nat :=
  if m = 2 then (if isLeap y then 29 else 28)
  else if m = 4 ∨ m = 6 ∨ m = 9 ∨ m = 11 then 30
  else 31

/-- Days in the given year strictly before month `m`. -/
def daysBeforeMonth (y m : Nat) : Nat :=
  let base :=
    if m ≤ 1 then 0 else if m = 2 then 31 else if m = 3 then 59
    else if m = 4 then 90 else if m = 5 then 120 else if m = 6 then 151
    else if m = 7 then 181 else if m = 8 then 212 else if m = 9 then 243
    else if m = 10 then 273 else if m = 11 then 304 else 334
  if isLeap y = true ∧ 3 ≤ m then base + 1 else base

/-- Count of leap years in `[1, n]`. -/
def leaps (n : Nat) : Nat := n / 4 + n / 400 - n / 100

/-- Days from CE of December 31 of year `y - 1` (so the year `y` starts at
`yearStartN y + 1`). -/
def yearStartN (y : Nat) : Nat := 365 * (y - 1) + leaps (y - 1)

/-- chrono's `num_days_from_ce`: 0001-01-01 is day 1, proleptic Gregorian. -/
def numDaysFromCE (dt : CDate) : Nat :=
  yearStartN dt.y + daysBeforeMonth dt.y dt.m + dt.d

/-- The date denotes an actual proleptic-Gregorian day of the common era. -/
def ValidDate (dt : CDate) : Prop :=
  1 ≤ dt.y ∧ 1 ≤ dt.m ∧ dt.m ≤ 12 ∧ 1 ≤ dt.d ∧ dt.d ≤ daysInMonth dt.y dt.m

instance : DecidablePred ValidDate := fun _ => by
  unfold ValidDate; infer_instance

/-- chrono's `is_weekend`: 0001-01-01 (day 1) was a Monday, so Saturday is
day-number 6 mod 7 and Sunday 0 mod 7. -/
def isWeekend (dt : CDate) : Bool :=
  numDaysFromCE dt % 7 == 6 || numDaysFromCE dt % 7 == 0

/-- The calendar successor of a date (chrono's `+ Duration::days(1)`). -/
def nextDay (dt : CDate) : CDate :=
  if dt.d < daysInMonth dt.y dt.m then ⟨dt.y, dt.m, dt.d + 1⟩
  else if dt.m < 12 then ⟨dt.y, dt.m + 1, 1⟩
  else ⟨dt.y + 1, 1, 1⟩

/-- Iterated calendar successor. -/
def addDays : CDate → Nat → CDate
  | dt, 0 => dt
  | dt, k + 1 => addDays (nextDay dt) k

/-- Year/month index, used to detect month boundaries. -/
def monthIdx (dt : CDate) : Nat := 12 * dt.y + dt.m

/-- Chronological order on dates (chrono `Ord`, all dates sharing the
process offset). -/
def dateLeB (a b : CDate) : Bool := decide (numDaysFromCE a ≤ numDaysFromCE b)

/-- Error type of `src/working_days.rs`. -/
inductive WorkingDaysError where
  | emptyHolidayList : WorkingDaysError
  | dateOutOfRange (startDate endDate : CDate) : WorkingDaysError
deriving DecidableEq, Repr

/-- The `WorkingDays` struct of `src/working_days.rs`. -/
structure WorkingDays where
  timeOffset : Int
  startDate : CDate
  endDate : CDate
  dataOffset : Nat
  data : List Nat
deriving DecidableEq, Repr

/-- The loop body of `process_working_days`. `fuel` bounds the iteration
count; the `while current_date <= end_date` guard is kept verbatim, and for
every valid walk the fuel passed by `processWorkingDays` is exact, so the
guard (not the fuel) terminates the loop. State: current date, the
`current_month` variable, the running `wd_count`, and the not-yet-consumed
suffix of the holiday iterator; the loop-body locals of the Rust code are
inlined. -/
def processGo (endN : Nat) : Nat → CDate → Nat → Nat → List CDate → List Nat
  | 0, _, _, _, _ => []
  | fuel + 1, cur, curMonth, wd, hols =>
    if numDaysFromCE cur ≤ endN then
      (if isWeekend cur = false ∧ some cur ≠ hols.head? then wd + 1 else wd) ::
        processGo endN fuel (nextDay cur)
          (if (nextDay cur).m ≠ curMonth then (nextDay cur).m else curMonth)
          (if (nextDay cur).m ≠ curMonth then 0
            else if isWeekend cur = false ∧ some cur ≠ hols.head? then wd + 1 else wd)
          (if some cur = hols.head? then hols.tail else hols)
    else []

/-- Rust `process_working_days` of `src/working_days.rs`: walks from `start_date`
to `end_date`, pushing the running count of working days elapsed in the
current month; the lazy `filter(|date| date >= start_date)` iterator over the
holidays is the pre-filtered list consumed from its head. -/
def processWorkingDays (startDate endDate : CDate) (holidays : List CDate) : List Nat :=
  processGo (numDaysFromCE endDate)
    (numDaysFromCE endDate + 1 - numDaysFromCE startDate) startDate startDate.m 0
    (holidays.filter (fun dt => decide (numDaysFromCE startDate ≤ numDaysFromCE dt)))

/-- Rust `WorkingDays::build_with_range`: sorts the holidays (Rust
`holidays.sort()`) and materialises the table. -/
def buildWithRange (timeOffset : Int) (startDate endDate : CDate)
    (holidays : List CDate) : WorkingDays :=
  { timeOffset := timeOffset
    startDate := startDate
    endDate := endDate
    dataOffset := numDaysFromCE startDate
    data := processWorkingDays startDate endDate (holidays.mergeSort dateLeB) }

/-- Rust `at_start_of_year`: `date.with_month(1).with_day(1)`. -/
def atStartOfYear (dt : CDate) : CDate := ⟨dt.y, 1, 1⟩

/-- Rust `at_end_of_year`: `date.with_month(12).with_day(31)`. -/
def atEndOfYear (dt : CDate) : CDate := ⟨dt.y, 12, 31⟩

/-- Rust `WorkingDays::build`: empty list is an error; otherwise the range is
January 1 of the first listed holiday's year through December 31 of the last
listed holiday's year. -/
def build (timeOffset : Int) (holidays : List CDate) :
    Except WorkingDaysError WorkingDays :=
  match holidays with
  | [] => .error .emptyHolidayList
  | h :: t =>
    .ok (buildWithRange timeOffset (atStartOfYear h)
      (atEndOfYear ((h :: t).getLastD h)) (h :: t))

/-- Rust `WorkingDays::working_days_mtd`: bounds-checked table lookup keyed by
`num_days_from_ce` minus the stored offset. -/
def workingDaysMtd (w : WorkingDays) (date : CDate) : Except WorkingDaysError Nat :=
  if w.dataOffset ≤ numDaysFromCE date ∧
      numDaysFromCE date < w.dataOffset + w.data.length then
    .ok (w.data.getD (numDaysFromCE date - w.dataOffset) 0)
  else
    .error (.dateOutOfRange w.startDate w.endDate)

/-- Glossary notion of a working day: neither a weekend day nor a listed
holiday. Used to state properties of the table built from a sorted,
duplicate-free holiday list. -/
def IsWorkingDay (holidays : List CDate) (dt : CDate) : Prop :=
  isWeekend dt = false ∧ dt ∉ holidays

instance (holidays : List CDate) : DecidablePred (IsWorkingDay holidays) := fun _ => by
  unfold IsWorkingDay; infer_instance

/-- Reference recursion for the table of `process_working_days` when the
holiday iterator behaves as plain set membership (which it does for sorted,
duplicate-free holiday lists): the month-tracking variable and the iterator
state are eliminated. -/
def specTable (endN : Nat) (base : List CDate) : Nat → CDate → Nat → List Nat
  | 0, _, _ => []
  | fuel + 1, cur, wd =>
    if numDaysFromCE cur ≤ endN then
      (if IsWorkingDay base cur then wd + 1 else wd) ::
        specTable endN base fuel (nextDay cur)
          (if (nextDay cur).m ≠ cur.m then 0
            else if IsWorkingDay base cur then wd + 1 else wd)
    else []

/-- The suffix of the holiday list not yet consumed by the iterator when the
walk is at day-number `n`. -/
def filterFrom (n : Nat) (base : List CDate) : List CDate :=
  base.filter (fun dt => decide (n ≤ numDaysFromCE dt))

/-! Handler embedding (`src/handler.rs`). The gRPC `Status` is reduced to its
invalid-argument constructor with the message string; the metadata map is a
partial function from keys to values; the wall clock is an injected
date/time-of-day pair. -/

/-- gRPC status as produced by the handler (only invalid-argument is used). -/
inductive Status where
  | invalidArgument (msg : String) : Status
deriving DecidableEq, Repr

/-- The `IsActiveResponse` message. -/
structure IsActiveResponse where
  result : Bool
deriving DecidableEq, Repr

/-- The string-keyed scaler metadata of a `ScaledObjectRef`. -/
def Metadata : Type := String → Option String

/-- Digits-only unsigned decimal reading with an optional leading `+`,
mirroring Rust's `str::parse` for unsigned integers (value bound checked by
the callers). -/
def parseNatStrict (s : String) : Option Nat :=
  let cs := match s.data with
    | '+' :: rest => rest
    | other => other
  if cs = [] then none
  else if cs.all Char.isDigit then
    some (cs.foldl (fun a c => 10 * a + (c.toNat - 48)) 0)
  else none

/-- Rust `value.parse::<u8>()`. -/
def parseU8 (s : String) : Option Nat :=
  match parseNatStrict s with
  | some n => if n ≤ 255 then some n else none
  | none => none

/-- Rust `value.parse::<u32>()`. -/
def parseU32 (s : String) : Option Nat :=
  match parseNatStrict s with
  | some n => if n ≤ 4294967295 then some n else none
  | none => none

/-- Modelled from the spec: the external chrono parser
`NaiveTime::parse_from_str(value, "%H:%M:%S")` is not part of this
repository; the spec requires a strict 24-hour `HH:MM:SS` format. The result
is the time of day in seconds. -/
def parseTimeHMS (s : String) : Option Nat :=
  match s.data with
  | [h1, h2, ':', m1, m2, ':', s1, s2] =>
    if h1.isDigit ∧ h2.isDigit ∧ m1.isDigit ∧ m2.isDigit ∧ s1.isDigit ∧ s2.isDigit then
      let h := 10 * (h1.toNat - 48) + (h2.toNat - 48)
      let mi := 10 * (m1.toNat - 48) + (m2.toNat - 48)
      let se := 10 * (s1.toNat - 48) + (s2.toNat - 48)
      if h ≤ 23 ∧ mi ≤ 59 ∧ se ≤ 59 then some (3600 * h + 60 * mi + se) else none
    else none
  | _ => none

/-- Rust `read_nth_working_day_arg` of `src/handler.rs`. -/
def readNthWorkingDayArg (md : Metadata) : Except Status Nat :=
  match md "nthWorkingDay" with
  | none => .error (.invalidArgument "Missing required metadata `nthWorkingDay`.")
  | some value =>
    match parseU8 value with
    | some parsed =>
      if parsed ≤ 31 then .ok parsed
      else .error (.invalidArgument
        "Metadata `nthWorkingDay` should be a value between 1 and 31.")
    | none => .error (.invalidArgument
        "Metadata `nthWorkingDay` should be a value between 1 and 31.")

/-- Rust `read_time` of `src/handler.rs`. -/
def readTime (md : Metadata) (parameter : String) : Except Status Nat :=
  match md parameter with
  | none => .error (.invalidArgument
      ("Missing required metadata `" ++ parameter ++ "`."))
  | some value =>
    match parseTimeHMS value with
    | some parsed => .ok parsed
    | none => .error (.invalidArgument
        ("Metadata `" ++ parameter ++ "` should be an time formatted as `%H:%M:%S`."))

/-- Rust `read_target_size` of `src/handler.rs`. -/
def readTargetSize (md : Metadata) : Except Status Nat :=
  match md "targetSize" with
  | none => .error (.invalidArgument "Missing required metadata `targetSize`.")
  | some value =>
    match parseU32 value with
    | some parsed => .ok parsed
    | none => .error (.invalidArgument
        "Metadata `targetSize` should be an integer value.")

/-- Zero-padded two-digit decimal rendering. -/
def pad2 (n : Nat) : String := if n < 10 then "0" ++ toString n else toString n

/-- Zero-padded four-digit decimal rendering. -/
def pad4 (n : Nat) : String :=
  if n < 10 then "000" ++ toString n
  else if n < 100 then "00" ++ toString n
  else if n < 1000 then "0" ++ toString n
  else toString n

/-- Modelled from the spec: chrono's `Display` for `Date<FixedOffset>`
(`%Y-%m-%d` followed by the `±HH:MM` offset), as seen in the repository's
expected error strings. -/
def formatDate (off : Int) (dt : CDate) : String :=
  pad4 dt.y ++ "-" ++ pad2 dt.m ++ "-" ++ pad2 dt.d ++
    (if off < 0 then "-" else "+") ++ pad2 (off.natAbs / 3600) ++ ":" ++
    pad2 (off.natAbs % 3600 / 60)

/-- The `thiserror` display strings of `WorkingDaysError`. -/
def workingDaysErrorMessage (off : Int) : WorkingDaysError → String
  | .emptyHolidayList =>
    "The holiday list is empty. Its also used to infer witch years to process."
  | .dateOutOfRange s e =>
    "The requested date was not calculated. Table processed for dates between "
      ++ formatDate off s ++ " and " ++ formatDate off e ++ "."

/-- Rust `current_nth_working_day` of `src/handler.rs`, with the wall-clock date
injected. -/
def currentNthWorkingDay (w : WorkingDays) (nowDate : CDate) : Except Status Nat :=
  (workingDaysMtd w nowDate).mapError
    (fun err => .invalidArgument (workingDaysErrorMessage w.timeOffset err))

/-- Rust `current_time_between` of `src/handler.rs`, with the wall-clock time of
day (seconds) injected: `from <= time && time <= to`. -/
def currentTimeBetween (fromTime toTime nowTime : Nat) : Bool :=
  decide (fromTime ≤ nowTime) && decide (nowTime ≤ toTime)

/-- Rust `is_active` of `src/handler.rs`, with the wall clock injected; each
`?`-propagation of the Rust code is an explicit match on the fallible read. -/
def isActive (w : WorkingDays) (md : Metadata) (nowDate : CDate) (nowTime : Nat) :
    Except Status IsActiveResponse :=
  match readNthWorkingDayArg md with
  | .error e => .error e
  | .ok expectedNthWorkingDay =>
    match readTime md "fromTime" with
    | .error e => .error e
    | .ok fromTime =>
      match readTime md "toTime" with
      | .error e => .error e
      | .ok toTime =>
        match readTargetSize md with
        | .error e => .error e
        | .ok _ =>
          match currentNthWorkingDay w nowDate with
          | .error e => .error e
          | .ok nthWorkingDay =>
            .ok ⟨decide (expectedNthWorkingDay = nthWorkingDay) &&
                  currentTimeBetween fromTime toTime nowTime⟩

/-- The index `build` returns on a non-empty holiday list (shorthand used to
state theorems about built indexes). -/
def builtIndex (off : Int) (h : CDate) (t : List CDate) : WorkingDays :=
  buildWithRange off (atStartOfYear h) (atEndOfYear ((h :: t).getLastD h)) (h :: t)

/-! Concrete data for the scenario claims. -/

/-- The twelve 2022 holidays of the repository's calculation test. -/
def c1Holidays : List CDate :=
  [⟨2022, 1, 1⟩, ⟨2022, 2, 28⟩, ⟨2022, 3, 1⟩, ⟨2022, 4, 15⟩, ⟨2022, 4, 21⟩,
   ⟨2022, 5, 1⟩, ⟨2022, 6, 16⟩, ⟨2022, 9, 7⟩, ⟨2022, 10, 12⟩, ⟨2022, 11, 2⟩,
   ⟨2022, 11, 15⟩, ⟨2022, 12, 25⟩]

/-- The index the repository's calculation test builds (offset UTC-3). -/
def c1Index : WorkingDays :=
  buildWithRange (-(3 * 3600)) ⟨2022, 1, 1⟩ ⟨2022, 12, 31⟩ c1Holidays

/-- The expected June 2022 working-days-elapsed sequence. -/
def c1June : List Nat :=
  [1, 2, 3, 3, 3, 4, 5, 6, 7, 8, 8, 8, 9, 10, 11, 11, 12, 12, 12, 13, 14, 15,
   16, 17, 17, 17, 18, 19, 20, 21]

/-- The holiday list with an in-range duplicate used to exercise the
duplicate-holiday behaviour of the iterator. -/
def c10DupHolidays : List CDate := [⟨2022, 6, 2⟩, ⟨2022, 6, 2⟩, ⟨2022, 6, 16⟩]

/-- Index over June 2022 built from the duplicate-containing list. -/
def c10DupIndex : WorkingDays :=
  buildWithRange 0 ⟨2022, 6, 1⟩ ⟨2022, 6, 30⟩ c10DupHolidays

/-- Index over June 2022 built from the same list with the duplicate
removed. -/
def c10NoDupIndex : WorkingDays :=
  buildWithRange 0 ⟨2022, 6, 1⟩ ⟨2022, 6, 30⟩ [⟨2022, 6, 2⟩, ⟨2022, 6, 16⟩]

/-- Metadata with a valid ordinal and target size but no time window. -/
def c2Metadata : Metadata := fun k =>
  if k = "nthWorkingDay" then some "5"
  else if k = "targetSize" then some "10"
  else none

/-- Metadata carrying `nthWorkingDay = "0"`. -/
def c3MetadataZero : Metadata := fun k =>
  if k = "nthWorkingDay" then some "0" else none

/-- Metadata carrying `nthWorkingDay = "32"`. -/
def c3Metadata32 : Metadata := fun k =>
  if k = "nthWorkingDay" then some "32" else none

/-- Metadata carrying only `nthWorkingDay = "7"`. -/
def c2MetadataW : Metadata := fun k =>
  if k = "nthWorkingDay" then some "7" else none

/-- Metadata with a valid ordinal, target size, and an inverted
(`from > to`) time window. -/
def c9Metadata : Metadata := fun k =>
  if k = "nthWorkingDay" then some "5"
  else if k = "targetSize" then some "10"
  else if k = "fromTime" then some "18:00:00"
  else if k = "toTime" then some "06:00:00"
  else none

instance {ε α : Type} [DecidableEq ε] [DecidableEq α] : DecidableEq (Except ε α) :=
  fun a b =>
    match a, b with
    | .ok x, .ok y =>
      if h : x = y then .isTrue (by rw [h])
      else .isFalse (fun hh => h (by injection hh))
    | .error x, .error y =>
      if h : x = y then .isTrue (by rw [h])
      else .isFalse (fun hh => h (by injection hh))
    | .ok _, .error _ => .isFalse (fun hh => by injection hh)
    | .error _, .ok _ => .isFalse (fun hh => by injection hh)

/-! Arithmetic facts about the calendar embedding. -/

theorem isLeap_iff (y : Nat) :
    isLeap y = true ↔ ((y % 4 = 0 ∧ y % 100 ≠ 0) ∨ y % 400 = 0) := by
  unfold isLeap
  simp [Bool.or_eq_true, Bool.and_eq_true, beq_iff_eq, bne_iff_ne]

theorem daysInMonth_pos (y m : Nat) : 1 ≤ daysInMonth y m := by
  unfold daysInMonth
  repeat' split
  all_goals omega

theorem daysBeforeMonth_succ (y : Nat) {m : Nat} (h1 : 1 ≤ m) (h2 : m ≤ 11) :
    daysBeforeMonth y (m + 1) = daysBeforeMonth y m + daysInMonth y m := by
  interval_cases m <;> cases hL : isLeap y <;>
    simp [daysBeforeMonth, daysInMonth, hL]

theorem yearStartN_succ {y : Nat} (h : 1 ≤ y) :
    yearStartN (y + 1) =
      yearStartN y + 365 + (if isLeap y = true then 1 else 0) := by
  have key := isLeap_iff y
  unfold yearStartN leaps
  split
  · next hL =>
    have hp := key.mp hL
    omega
  · next hL =>
    have hp : ¬((y % 4 = 0 ∧ y % 100 ≠ 0) ∨ y % 400 = 0) := fun hp => hL (key.mpr hp)
    omega

theorem yearStartN_mono {a b : Nat} (h : a ≤ b) : yearStartN a ≤ yearStartN b := by
  unfold yearStartN leaps
  omega

theorem inYear_bounds {dt : CDate} (h : ValidDate dt) :
    1 ≤ daysBeforeMonth dt.y dt.m + dt.d ∧
      daysBeforeMonth dt.y dt.m + dt.d ≤
        365 + (if isLeap dt.y = true then 1 else 0) := by
  obtain ⟨y, m, d⟩ := dt
  obtain ⟨h1, h2, h3, h4, h5⟩ := h
  simp only at h2 h3 h4 h5 ⊢
  interval_cases m <;> cases hL : isLeap y <;>
    simp [daysBeforeMonth, daysInMonth, hL] at h5 ⊢ <;> omega

theorem numDaysFromCE_here (dt : CDate) :
    numDaysFromCE dt = yearStartN dt.y + daysBeforeMonth dt.y dt.m + dt.d := rfl

theorem daysBeforeMonth_one (y : Nat) : daysBeforeMonth y 1 = 0 := by
  cases hL : isLeap y <;> simp [daysBeforeMonth, hL]

theorem daysBeforeMonth_twelve (y : Nat) :
    daysBeforeMonth y 12 = 334 + (if isLeap y = true then 1 else 0) := by
  cases hL : isLeap y <;> simp [daysBeforeMonth, hL]

theorem nextDay_spec {dt : CDate} (h : ValidDate dt) :
    ValidDate (nextDay dt) ∧
      numDaysFromCE (nextDay dt) = numDaysFromCE dt + 1 ∧
      ((nextDay dt).y = dt.y ∧ (nextDay dt).m = dt.m ∧ (nextDay dt).d = dt.d + 1 ∨
        (nextDay dt).m ≠ dt.m ∧ (nextDay dt).d = 1 ∧
          monthIdx (nextDay dt) = monthIdx dt + 1) := by
  obtain ⟨y, m, d⟩ := dt
  obtain ⟨h1, h2, h3, h4, h5⟩ := h
  simp only at h1 h2 h3 h4 h5
  by_cases hlt : d < daysInMonth y m
  · have hnd : nextDay ⟨y, m, d⟩ = ⟨y, m, d + 1⟩ := by
      unfold nextDay
      simp only
      rw [if_pos hlt]
    rw [hnd]
    refine ⟨by simp [ValidDate]; omega, by simp [numDaysFromCE_here]; omega,
      Or.inl (by simp)⟩
  · have hd : d = daysInMonth y m := by omega
    by_cases hm12 : m < 12
    · have hnd : nextDay ⟨y, m, d⟩ = ⟨y, m + 1, 1⟩ := by
        unfold nextDay
        simp only
        rw [if_neg hlt, if_pos (by simpa using hm12)]
      rw [hnd]
      have hdim1 := daysInMonth_pos y (m + 1)
      have hstep := daysBeforeMonth_succ y h2 (by omega)
      refine ⟨by simp [ValidDate]; omega, ?_,
        Or.inr ⟨by simp, rfl, by simp only [monthIdx]; omega⟩⟩
      simp only [numDaysFromCE_here]
      omega
    · have hm : m = 12 := by omega
      subst hm
      have hd31 : d = 31 := by
        have : daysInMonth y 12 = 31 := by simp [daysInMonth]
        omega
      have hnd : nextDay ⟨y, 12, d⟩ = ⟨y + 1, 1, 1⟩ := by
        unfold nextDay
        simp only
        rw [if_neg hlt, if_neg (by omega)]
      rw [hnd]
      have hdim1 := daysInMonth_pos (y + 1) 1
      have hys := yearStartN_succ h1
      have hdb := daysBeforeMonth_twelve y
      have hdb1 := daysBeforeMonth_one (y + 1)
      refine ⟨by simp [ValidDate]; omega, ?_,
        Or.inr ⟨by simp, rfl, by simp only [monthIdx]; omega⟩⟩
      simp only [numDaysFromCE_here]
      omega

theorem nextDay_valid {dt : CDate} (h : ValidDate dt) : ValidDate (nextDay dt) :=
  (nextDay_spec h).1

theorem numDaysFromCE_nextDay {dt : CDate} (h : ValidDate dt) :
    numDaysFromCE (nextDay dt) = numDaysFromCE dt + 1 :=
  (nextDay_spec h).2.1

theorem nextDay_day_one_iff {dt : CDate} (h : ValidDate dt) :
    ((nextDay dt).d = 1 ↔ (nextDay dt).m ≠ dt.m) := by
  rcases (nextDay_spec h).2.2 with ⟨hy, hm, hd⟩ | ⟨hm, hd, hmi⟩
  · constructor
    · intro h1
      obtain ⟨_, _, _, hd4, _⟩ := h
      omega
    · intro hne
      exact absurd hm hne
  · constructor
    · intro _
      exact hm
    · intro _
      exact hd

theorem monthIdx_nextDay {dt : CDate} (h : ValidDate dt) :
    monthIdx dt ≤ monthIdx (nextDay dt) ∧
      monthIdx (nextDay dt) ≤ monthIdx dt + 1 := by
  rcases (nextDay_spec h).2.2 with ⟨hy, hm, _⟩ | ⟨_, _, hmi⟩
  · constructor <;> simp [monthIdx, hy, hm]
  · omega

theorem nextDay_sameMonth {dt : CDate} (h : ValidDate dt)
    (hm : (nextDay dt).m = dt.m) : (nextDay dt).y = dt.y ∧ monthIdx (nextDay dt) = monthIdx dt := by
  rcases (nextDay_spec h).2.2 with ⟨hy, hm2, _⟩ | ⟨hne, _, _⟩
  · exact ⟨hy, by simp [monthIdx, hy, hm2]⟩
  · exact absurd hm hne

theorem daysBeforeMonth_add_le {y : Nat} {m m' : Nat} (h1 : 1 ≤ m) (h2 : m < m')
    (h3 : m' ≤ 12) :
    daysBeforeMonth y m + daysInMonth y m ≤ daysBeforeMonth y m' := by
  have hmu : m ≤ 11 := by omega
  interval_cases m <;> interval_cases m' <;> cases hL : isLeap y <;>
    simp [daysBeforeMonth, daysInMonth, hL]

theorem numDays_lt_of_year_lt {a b : CDate} (ha : ValidDate a) (hb : ValidDate b)
    (h : a.y < b.y) : numDaysFromCE a < numDaysFromCE b := by
  have hia := inYear_bounds ha
  have hib := inYear_bounds hb
  have h1 : numDaysFromCE a ≤ yearStartN (a.y + 1) := by
    have := yearStartN_succ ha.1
    simp only [numDaysFromCE_here]
    omega
  have h2 : yearStartN (a.y + 1) ≤ yearStartN b.y := yearStartN_mono (by omega)
  simp only [numDaysFromCE_here] at h1 ⊢
  omega

theorem numDays_lt_of_month_lt {a b : CDate} (ha : ValidDate a) (hb : ValidDate b)
    (hy : a.y = b.y) (h : a.m < b.m) : numDaysFromCE a < numDaysFromCE b := by
  have hd : a.d ≤ daysInMonth a.y a.m := ha.2.2.2.2
  have hadd := daysBeforeMonth_add_le (y := a.y) ha.2.1 h hb.2.2.1
  have hbd : 1 ≤ b.d := hb.2.2.2.1
  simp only [numDaysFromCE_here, ← hy]
  omega

theorem numDays_inj {a b : CDate} (ha : ValidDate a) (hb : ValidDate b)
    (h : numDaysFromCE a = numDaysFromCE b) : a = b := by
  rcases Nat.lt_trichotomy a.y b.y with hy | hy | hy
  · exact absurd h (Nat.ne_of_lt (numDays_lt_of_year_lt ha hb hy))
  · rcases Nat.lt_trichotomy a.m b.m with hm | hm | hm
    · exact absurd h (Nat.ne_of_lt (numDays_lt_of_month_lt ha hb hy hm))
    · have hd : a.d = b.d := by
        simp only [numDaysFromCE_here, hy, hm] at h
        omega
      obtain ⟨ya, ma, da⟩ := a
      obtain ⟨yb, mb, db⟩ := b
      simp only at hy hm hd
      simp [hy, hm, hd]
    · exact absurd h.symm (Nat.ne_of_lt (numDays_lt_of_month_lt hb ha hy.symm hm))
  · exact absurd h.symm (Nat.ne_of_lt (numDays_lt_of_year_lt hb ha hy))

theorem year_le_of_numDays_le {a b : CDate} (ha : ValidDate a) (hb : ValidDate b)
    (h : numDaysFromCE a ≤ numDaysFromCE b) : a.y ≤ b.y := by
  by_contra hc
  exact absurd (numDays_lt_of_year_lt hb ha (by omega)) (by omega)

theorem numDays_jan1_le {y : Nat} {b : CDate} (hb : ValidDate b) (hy : y ≤ b.y) :
    numDaysFromCE ⟨y, 1, 1⟩ ≤ numDaysFromCE b := by
  have hib := inYear_bounds hb
  have hys : yearStartN y ≤ yearStartN b.y := yearStartN_mono hy
  simp only [numDaysFromCE_here]
  have hdb : daysBeforeMonth y 1 = 0 := by
    cases hL : isLeap y <;> simp [daysBeforeMonth, hL]
  omega

theorem numDays_le_dec31 {y : Nat} {a : CDate} (ha : ValidDate a) (hy : a.y ≤ y) :
    numDaysFromCE a ≤ numDaysFromCE ⟨y, 12, 31⟩ := by
  have hia := inYear_bounds ha
  have hys : yearStartN a.y ≤ yearStartN y := yearStartN_mono hy
  simp only [numDaysFromCE_here]
  have hdb : daysBeforeMonth y 12 = 334 + (if isLeap y = true then 1 else 0) := by
    cases hL : isLeap y <;> simp [daysBeforeMonth, hL]
  by_cases hyy : a.y = y
  · subst hyy
    omega
  · have : yearStartN (a.y + 1) ≤ yearStartN y := yearStartN_mono (by omega)
    have := yearStartN_succ ha.1
    omega

theorem addDays_zero (dt : CDate) : addDays dt 0 = dt := rfl

theorem addDays_succ (dt : CDate) (k : Nat) :
    addDays dt (k + 1) = addDays (nextDay dt) k := rfl

theorem addDays_add (dt : CDate) (a b : Nat) :
    addDays dt (a + b) = addDays (addDays dt a) b := by
  induction a generalizing dt with
  | zero => rw [Nat.zero_add, addDays_zero]
  | succ n ih =>
    calc addDays dt (n + 1 + b) = addDays (nextDay dt) (n + b) := by
          rw [show n + 1 + b = (n + b) + 1 by omega, addDays_succ]
    _ = addDays (addDays (nextDay dt) n) b := ih (nextDay dt)
    _ = addDays (addDays dt (n + 1)) b := by rw [addDays_succ]

theorem addDays_valid {dt : CDate} (h : ValidDate dt) (k : Nat) :
    ValidDate (addDays dt k) := by
  induction k generalizing dt with
  | zero => exact h
  | succ n ih => exact ih (nextDay_valid h)

theorem numDays_addDays {dt : CDate} (h : ValidDate dt) (k : Nat) :
    numDaysFromCE (addDays dt k) = numDaysFromCE dt + k := by
  induction k generalizing dt with
  | zero => rfl
  | succ n ih =>
    rw [addDays_succ, ih (nextDay_valid h), numDaysFromCE_nextDay h]
    omega

theorem monthIdx_addDays_le {dt : CDate} (h : ValidDate dt) (k : Nat) :
    monthIdx dt ≤ monthIdx (addDays dt k) := by
  induction k generalizing dt with
  | zero => exact le_refl _
  | succ n ih =>
    calc monthIdx dt ≤ monthIdx (nextDay dt) := (monthIdx_nextDay h).1
    _ ≤ monthIdx (addDays (nextDay dt) n) := ih (nextDay_valid h)

theorem monthIdx_addDays_mono {dt : CDate} (h : ValidDate dt) {i j : Nat}
    (hij : i ≤ j) : monthIdx (addDays dt i) ≤ monthIdx (addDays dt j) := by
  have : j = i + (j - i) := by omega
  rw [this, addDays_add]
  exact monthIdx_addDays_le (addDays_valid h i) (j - i)

theorem monthIdx_eq_iff {a b : CDate} (ha : ValidDate a) (hb : ValidDate b) :
    (monthIdx a = monthIdx b ↔ a.y = b.y ∧ a.m = b.m) := by
  obtain ⟨_, ham, ham12, _, _⟩ := ha
  obtain ⟨_, hbm, hbm12, _, _⟩ := hb
  unfold monthIdx
  omega

theorem monthIdx_between {dt : CDate} (h : ValidDate dt) {i j : Nat}
    (hij : i ≤ j) (hj : monthIdx (addDays dt j) = monthIdx dt) :
    monthIdx (addDays dt i) = monthIdx dt := by
  have h1 := monthIdx_addDays_le h i
  have h2 := monthIdx_addDays_mono h hij
  omega

theorem addDays_of_numDays {a b : CDate} (ha : ValidDate a) (hb : ValidDate b)
    (h : numDaysFromCE a ≤ numDaysFromCE b) :
    addDays a (numDaysFromCE b - numDaysFromCE a) = b := by
  apply numDays_inj (addDays_valid ha _) hb
  rw [numDays_addDays ha]
  omega

/-! Facts about the pre-filtered holiday iterator. -/

theorem filterFrom_of_mem {base : List CDate} {c : CDate} {n : Nat}
    (hs : base.Pairwise (fun a b => numDaysFromCE a < numDaysFromCE b))
    (hc : c ∈ base) (hn : numDaysFromCE c = n) :
    filterFrom n base = c :: filterFrom (n + 1) base := by
  induction base with
  | nil => cases hc
  | cons x t ih =>
    rcases List.pairwise_cons.mp hs with ⟨hx, ht⟩
    rcases List.mem_cons.mp hc with hcx | hct
    · subst hcx
      have hkeep : filterFrom n (c :: t) = c :: filterFrom n t := by
        unfold filterFrom
        rw [List.filter_cons_of_pos (by simp [hn])]
      have hdrop : filterFrom (n + 1) (c :: t) = filterFrom (n + 1) t := by
        unfold filterFrom
        rw [List.filter_cons_of_neg (by simp [hn])]
      have htt : filterFrom n t = t := by
        unfold filterFrom
        apply List.filter_eq_self.mpr
        intro x hx2
        simp only [decide_eq_true_eq]
        have := hx x hx2
        omega
      have htt1 : filterFrom (n + 1) t = t := by
        unfold filterFrom
        apply List.filter_eq_self.mpr
        intro x hx2
        simp only [decide_eq_true_eq]
        have := hx x hx2
        omega
      rw [hkeep, hdrop, htt, htt1]
    · have hxc : numDaysFromCE x < n := by
        have := hx c hct
        omega
      have h1 : filterFrom n (x :: t) = filterFrom n t := by
        unfold filterFrom
        rw [List.filter_cons_of_neg (by simp; omega)]
      have h2 : filterFrom (n + 1) (x :: t) = filterFrom (n + 1) t := by
        unfold filterFrom
        rw [List.filter_cons_of_neg (by simp; omega)]
      rw [h1, h2]
      exact ih ht hct

theorem filterFrom_of_not_mem {base : List CDate} {n : Nat}
    (h : ∀ x ∈ base, numDaysFromCE x ≠ n) :
    filterFrom n base = filterFrom (n + 1) base := by
  unfold filterFrom
  apply List.filter_congr
  intro x hx
  have := h x hx
  simp only [decide_eq_decide]
  omega

theorem head_filterFrom_mem {base : List CDate} {n : Nat} {x : CDate}
    (h : (filterFrom n base).head? = some x) :
    x ∈ base ∧ n ≤ numDaysFromCE x := by
  have hmem : x ∈ filterFrom n base := by
    rcases List.head?_eq_some_iff.mp h with ⟨ys, hys⟩
    rw [hys]
    exact List.mem_cons_self x ys
  unfold filterFrom at hmem
  have := List.of_mem_filter hmem
  simp only [decide_eq_true_eq] at this
  exact ⟨List.mem_of_mem_filter hmem, this⟩

/-! The loop, its reference recursion, and the iterator invariant. -/

theorem processGo_length (endN : Nat) (fuel : Nat) :
    ∀ (cur : CDate) (cm wd : Nat) (hols : List CDate), ValidDate cur →
      (processGo endN fuel cur cm wd hols).length =
        min fuel (endN + 1 - numDaysFromCE cur) := by
  induction fuel with
  | zero =>
    intro cur cm wd hols hv
    simp [processGo]
  | succ n ih =>
    intro cur cm wd hols hv
    rw [processGo]
    split
    · next hle =>
      simp only [List.length_cons]
      rw [ih (nextDay cur) _ _ _ (nextDay_valid hv), numDaysFromCE_nextDay hv]
      omega
    · next hgt =>
      simp only [List.length_nil]
      omega

theorem specTable_length (endN : Nat) (base : List CDate) (fuel : Nat) :
    ∀ (cur : CDate) (wd : Nat), ValidDate cur →
      (specTable endN base fuel cur wd).length =
        min fuel (endN + 1 - numDaysFromCE cur) := by
  induction fuel with
  | zero =>
    intro cur wd hv
    simp [specTable]
  | succ n ih =>
    intro cur wd hv
    rw [specTable]
    split
    · next hle =>
      simp only [List.length_cons]
      rw [ih (nextDay cur) _ (nextDay_valid hv), numDaysFromCE_nextDay hv]
      omega
    · next hgt =>
      simp only [List.length_nil]
      omega

theorem processGo_eq_specTable {base : List CDate}
    (hs : base.Pairwise (fun a b => numDaysFromCE a < numDaysFromCE b))
    (hbv : ∀ x ∈ base, ValidDate x) (endN : Nat) (fuel : Nat) :
    ∀ (cur : CDate) (wd : Nat), ValidDate cur →
      processGo endN fuel cur cur.m wd (filterFrom (numDaysFromCE cur) base) =
        specTable endN base fuel cur wd := by
  induction fuel with
  | zero => intro cur wd hv; rfl
  | succ n ih =>
    intro cur wd hv
    rw [processGo, specTable]
    by_cases hle : numDaysFromCE cur ≤ endN
    case neg => rw [if_neg hle, if_neg hle]
    case pos =>
    rw [if_pos hle, if_pos hle]
    have hnext : numDaysFromCE (nextDay cur) = numDaysFromCE cur + 1 :=
      numDaysFromCE_nextDay hv
    have hcm : (if (nextDay cur).m ≠ cur.m then (nextDay cur).m else cur.m) =
        (nextDay cur).m := by
      split
      · rfl
      · next hne => simp at hne; rw [hne]
    by_cases hmem : cur ∈ base
    · have hff := filterFrom_of_mem hs hmem rfl
      have hIW : ¬ IsWorkingDay base cur := fun hc => hc.2 hmem
      have hwd1 :
          (if isWeekend cur = false ∧
              some cur ≠ (filterFrom (numDaysFromCE cur) base).head? then wd + 1 else wd)
            = (if IsWorkingDay base cur then wd + 1 else wd) := by
        rw [hff, if_neg hIW]
        simp
      have htail :
          (if some cur = (filterFrom (numDaysFromCE cur) base).head? then
              (filterFrom (numDaysFromCE cur) base).tail
            else filterFrom (numDaysFromCE cur) base)
            = filterFrom (numDaysFromCE (nextDay cur)) base := by
        rw [hff, hnext]
        simp
      rw [hwd1, htail, hcm]
      rw [ih (nextDay cur) _ (nextDay_valid hv)]
    · have hnone : ∀ x ∈ base, numDaysFromCE x ≠ numDaysFromCE cur := by
        intro x hx heq
        exact hmem (numDays_inj (hbv x hx) hv heq ▸ hx)
      have hff := filterFrom_of_not_mem hnone
      have hIW : (IsWorkingDay base cur ↔ isWeekend cur = false) := by
        unfold IsWorkingDay
        simp [hmem]
      have hnomatch : some cur ≠ (filterFrom (numDaysFromCE cur) base).head? := by
        intro heq
        rcases head_filterFrom_mem heq.symm with ⟨hxb, _⟩
        exact hmem hxb
      have hwd1 :
          (if isWeekend cur = false ∧
              some cur ≠ (filterFrom (numDaysFromCE cur) base).head? then wd + 1 else wd)
            = (if IsWorkingDay base cur then wd + 1 else wd) := by
        by_cases hw : isWeekend cur = false
        · rw [if_pos ⟨hw, hnomatch⟩, if_pos (hIW.mpr hw)]
        · rw [if_neg (fun hc => hw hc.1), if_neg (fun hc => hw (hIW.mp hc))]
      have htail :
          (if some cur = (filterFrom (numDaysFromCE cur) base).head? then
              (filterFrom (numDaysFromCE cur) base).tail
            else filterFrom (numDaysFromCE cur) base)
            = filterFrom (numDaysFromCE (nextDay cur)) base := by
        rw [if_neg hnomatch, hnext]
        exact hff
      rw [hwd1, htail, hcm]
      rw [ih (nextDay cur) _ (nextDay_valid hv)]

theorem processGo_stuck (endN : Nat) (fuel : Nat) :
    ∀ (cur : CDate) (cm wd : Nat) (d : CDate) (t1 t2 : List CDate),
      ValidDate cur → numDaysFromCE d < numDaysFromCE cur →
      processGo endN fuel cur cm wd (d :: t1) =
        processGo endN fuel cur cm wd (d :: t2) := by
  induction fuel with
  | zero => intro cur cm wd d t1 t2 hv hlt; rfl
  | succ n ih =>
    intro cur cm wd d t1 t2 hv hlt
    have hne : ¬(some cur = some d) := by
      intro heq
      have : cur = d := by injection heq
      rw [this] at hlt
      omega
    rw [processGo, processGo]
    by_cases hle : numDaysFromCE cur ≤ endN
    case neg => rw [if_neg hle, if_neg hle]
    case pos =>
    rw [if_pos hle, if_pos hle]
    simp only [List.head?_cons]
    rw [if_neg hne, if_neg hne]
    have hstep := numDaysFromCE_nextDay hv
    congr 1
    exact ih (nextDay cur) _ _ d t1 t2 (nextDay_valid hv) (by omega)

theorem specTable_head (endN : Nat) (base : List CDate) (fuel : Nat) (cur : CDate)
    (wd : Nat) (hfuel : 0 < fuel) (hle : numDaysFromCE cur ≤ endN) :
    (specTable endN base fuel cur wd).getD 0 0 =
      wd + (if IsWorkingDay base cur then 1 else 0) := by
  obtain ⟨n, rfl⟩ : ∃ n, fuel = n + 1 := ⟨fuel - 1, by omega⟩
  rw [specTable, if_pos hle]
  by_cases hiw : IsWorkingDay base cur <;> simp [hiw]

theorem specTable_step (endN : Nat) (base : List CDate) (fuel : Nat) :
    ∀ (cur : CDate) (wd : Nat) (j : Nat), ValidDate cur →
      j + 1 < (specTable endN base fuel cur wd).length →
      (specTable endN base fuel cur wd).getD (j + 1) 0 =
        (if (addDays cur (j + 1)).d = 1 then 0
          else (specTable endN base fuel cur wd).getD j 0) +
          (if IsWorkingDay base (addDays cur (j + 1)) then 1 else 0) := by
  induction fuel with
  | zero =>
    intro cur wd j hv hlen
    simp [specTable] at hlen
  | succ n ih =>
    intro cur wd j hv hlen
    by_cases hle : numDaysFromCE cur ≤ endN
    case neg =>
      rw [specTable, if_neg hle] at hlen
      simp at hlen
    case pos =>
    have hlen' : j < (specTable endN base n (nextDay cur)
        (if (nextDay cur).m ≠ cur.m then 0
          else if IsWorkingDay base cur then wd + 1 else wd)).length := by
      rw [specTable, if_pos hle] at hlen
      simpa using hlen
    rw [specTable, if_pos hle]
    rcases j with _ | k
    · -- the second entry of the list, via the head of the tail call
      have hmin : (0 : Nat) < n ∧
          0 < endN + 1 - numDaysFromCE (nextDay cur) := by
        apply Nat.lt_min.mp
        rw [← specTable_length endN base n _ _ (nextDay_valid hv)]
        exact hlen'
      have hn : 0 < n := hmin.1
      have hnle : numDaysFromCE (nextDay cur) ≤ endN := by
        have h3 := hmin.2
        omega
      simp only [List.getD_cons_succ, List.getD_cons_zero]
      rw [specTable_head endN base n (nextDay cur) _ hn hnle]
      have hone := nextDay_day_one_iff hv
      have haddone : addDays cur 1 = nextDay cur := rfl
      rw [haddone]
      by_cases hm : (nextDay cur).m ≠ cur.m
      · rw [if_pos hm, if_pos (hone.mpr hm)]
      · rw [if_neg hm, if_neg (fun h1 => hm (hone.mp h1))]
    · simp only [List.getD_cons_succ]
      rw [ih (nextDay cur) _ k (nextDay_valid hv) hlen']
      have hshift : ∀ z : Nat, addDays (nextDay cur) z = addDays cur (z + 1) := by
        intro z
        rw [addDays_succ]
      rw [hshift (k + 1)]

theorem addDays_succ' (dt : CDate) (k : Nat) :
    addDays dt (k + 1) = nextDay (addDays dt k) := by
  rw [addDays_add dt k 1]
  rfl

theorem specTable_mono (endN : Nat) (base : List CDate) (fuel : Nat) (cur : CDate)
    (wd : Nat) (hv : ValidDate cur) :
    ∀ (j i : Nat), i ≤ j → j < (specTable endN base fuel cur wd).length →
      monthIdx (addDays cur i) = monthIdx (addDays cur j) →
      (specTable endN base fuel cur wd).getD i 0 ≤
        (specTable endN base fuel cur wd).getD j 0 := by
  intro j
  induction j with
  | zero =>
    intro i hij _ _
    have : i = 0 := by omega
    rw [this]
  | succ k ihk =>
    intro i hij hlen hm
    rcases Nat.eq_or_lt_of_le hij with heq | hlt
    · rw [heq]
    · have hik : i ≤ k := by omega
      have hvk : ValidDate (addDays cur k) := addDays_valid hv k
      have hmk : monthIdx (addDays cur i) = monthIdx (addDays cur k) := by
        have he : ValidDate (addDays cur i) := addDays_valid hv i
        have h1 : addDays cur k = addDays (addDays cur i) (k - i) := by
          rw [← addDays_add]
          congr 1
          omega
        have h2 : addDays cur (k + 1) = addDays (addDays cur i) (k + 1 - i) := by
          rw [← addDays_add]
          congr 1
          omega
        have hb := monthIdx_between he (i := k - i) (j := k + 1 - i) (by omega)
          (by rw [← h2, ← hm])
        rw [h1]
        exact (hb).symm
      have hkk : addDays cur (k + 1) = nextDay (addDays cur k) := addDays_succ' cur k
      have hne1 : (addDays cur (k + 1)).d ≠ 1 := by
        intro h1
        rw [hkk] at h1 hm
        have hnm := (nextDay_day_one_iff hvk).mp h1
        rcases (nextDay_spec hvk).2.2 with ⟨_, hmm, _⟩ | ⟨_, _, hmi⟩
        · exact hnm hmm
        · omega
      have hstep := specTable_step endN base fuel cur wd k hv hlen
      rw [hstep, if_neg hne1]
      have hik2 := ihk i hik (by omega) hmk
      omega

theorem pairwise_le_getLastD :
    ∀ (l : List CDate) (a : CDate),
      (a :: l).Pairwise (fun x y => numDaysFromCE x ≤ numDaysFromCE y) →
      ∀ x ∈ a :: l, numDaysFromCE x ≤ numDaysFromCE ((a :: l).getLastD a)
  | [], a, _, x, hx => by
    simp at hx
    subst hx
    exact le_refl _
  | b :: l, a, hs, x, hx => by
    rcases List.pairwise_cons.mp hs with ⟨ha, ht⟩
    rcases List.mem_cons.mp hx with rfl | hx2
    · have hb := pairwise_le_getLastD l b ht b (List.mem_cons_self b l)
      have hab := ha b (List.mem_cons_self b l)
      exact le_trans hab hb
    · exact pairwise_le_getLastD l b ht x hx2

theorem mergeSort_sorted_id {hols : List CDate}
    (hs : hols.Pairwise (fun a b => numDaysFromCE a < numDaysFromCE b)) :
    hols.mergeSort dateLeB = hols := by
  apply List.mergeSort_of_sorted
  apply hs.imp
  intro a b hab
  unfold dateLeB
  simp only [decide_eq_true_eq]
  omega

theorem buildWithRange_sorted_eval (off : Int) (s e : CDate) (hols : List CDate)
    (hs : hols.Pairwise (fun a b => dateLeB a b = true)) :
    buildWithRange off s e hols =
      ⟨off, s, e, numDaysFromCE s, processWorkingDays s e hols⟩ := by
  unfold buildWithRange
  rw [List.mergeSort_of_sorted hs]

theorem atStartOfYear_valid {dt : CDate} (h1 : 1 ≤ dt.y) :
    ValidDate (atStartOfYear dt) := by
  simp [ValidDate, atStartOfYear, daysInMonth]
  omega

theorem atEndOfYear_valid {dt : CDate} (h1 : 1 ≤ dt.y) :
    ValidDate (atEndOfYear dt) := by
  simp [ValidDate, atEndOfYear, daysInMonth]
  omega

theorem buildWithRange_data_eq (off : Int) (s e : CDate) (hols : List CDate)
    (hvs : ValidDate s) (hv : ∀ x ∈ hols, ValidDate x)
    (hs : hols.Pairwise (fun a b => numDaysFromCE a < numDaysFromCE b)) :
    (buildWithRange off s e hols).data =
      specTable (numDaysFromCE e) hols
        (numDaysFromCE e + 1 - numDaysFromCE s) s 0 := by
  show processWorkingDays s e (hols.mergeSort dateLeB) = _
  rw [mergeSort_sorted_id hs]
  show processGo (numDaysFromCE e) (numDaysFromCE e + 1 - numDaysFromCE s) s s.m 0
      (filterFrom (numDaysFromCE s) hols) = _
  exact processGo_eq_specTable hs hv _ _ s 0 hvs

theorem build_cons (off : Int) (h : CDate) (t : List CDate) :
    build off (h :: t) = .ok (builtIndex off h t) := rfl

theorem builtIndex_start_le_end (off : Int) (h : CDate) (t : List CDate)
    (hv : ∀ x ∈ h :: t, ValidDate x)
    (hs : (h :: t).Pairwise (fun a b => numDaysFromCE a ≤ numDaysFromCE b)) :
    numDaysFromCE (builtIndex off h t).startDate ≤
      numDaysFromCE (builtIndex off h t).endDate := by
  have hL : (h :: t).getLastD h ∈ h :: t := List.getLast_mem (by simp)
  have hvL := hv _ hL
  have hvh := hv h (List.mem_cons_self h t)
  have hle : numDaysFromCE h ≤ numDaysFromCE ((h :: t).getLastD h) :=
    pairwise_le_getLastD t h hs h (List.mem_cons_self h t)
  have hy : h.y ≤ ((h :: t).getLastD h).y := year_le_of_numDays_le hvh hvL hle
  show numDaysFromCE (atStartOfYear h) ≤ numDaysFromCE (atEndOfYear _)
  calc numDaysFromCE (atStartOfYear h) ≤ numDaysFromCE ((h :: t).getLastD h) :=
        numDays_jan1_le hvL hy
  _ ≤ numDaysFromCE (atEndOfYear ((h :: t).getLastD h)) :=
        numDays_le_dec31 hvL (le_refl _)

theorem builtIndex_data_length (off : Int) (h : CDate) (t : List CDate)
    (hv : ∀ x ∈ h :: t, ValidDate x)
    (hs : (h :: t).Pairwise (fun a b => numDaysFromCE a < numDaysFromCE b)) :
    (builtIndex off h t).data.length =
      numDaysFromCE (builtIndex off h t).endDate + 1 -
        numDaysFromCE (builtIndex off h t).startDate := by
  have hvh := hv h (List.mem_cons_self h t)
  have hvs : ValidDate (atStartOfYear h) := atStartOfYear_valid hvh.1
  show (buildWithRange off (atStartOfYear h) _ (h :: t)).data.length = _
  rw [buildWithRange_data_eq off _ _ _ hvs hv hs]
  rw [specTable_length _ _ _ _ _ hvs]
  rw [Nat.min_self]
  rfl

theorem builtIndex_mtd (off : Int) (h : CDate) (t : List CDate)
    (hv : ∀ x ∈ h :: t, ValidDate x)
    (hs : (h :: t).Pairwise (fun a b => numDaysFromCE a < numDaysFromCE b))
    (d : CDate)
    (hd1 : numDaysFromCE (builtIndex off h t).startDate ≤ numDaysFromCE d)
    (hd2 : numDaysFromCE d ≤ numDaysFromCE (builtIndex off h t).endDate) :
    workingDaysMtd (builtIndex off h t) d =
      .ok ((specTable (numDaysFromCE (builtIndex off h t).endDate) (h :: t)
        (numDaysFromCE (builtIndex off h t).endDate + 1 -
          numDaysFromCE (builtIndex off h t).startDate)
        (builtIndex off h t).startDate 0).getD
        (numDaysFromCE d - numDaysFromCE (builtIndex off h t).startDate) 0) := by
  have hvh := hv h (List.mem_cons_self h t)
  have hvs : ValidDate (atStartOfYear h) := atStartOfYear_valid hvh.1
  have hlen := builtIndex_data_length off h t hv hs
  have hdata : (builtIndex off h t).data =
      specTable (numDaysFromCE (builtIndex off h t).endDate) (h :: t)
        (numDaysFromCE (builtIndex off h t).endDate + 1 -
          numDaysFromCE (builtIndex off h t).startDate)
        (builtIndex off h t).startDate 0 :=
    buildWithRange_data_eq off _ _ _ hvs hv hs
  have hoffs : (builtIndex off h t).dataOffset =
      numDaysFromCE (builtIndex off h t).startDate := rfl
  unfold workingDaysMtd
  rw [if_pos ⟨by rw [hoffs]; exact hd1, by rw [hoffs, hlen]; omega⟩]
  rw [hdata, hoffs]

/-! Claim theorems. -/

/-- C7: `WorkingDays::build` returns `EmptyHolidayList` if and only if the
holiday list is empty, and returns `Ok` on every non-empty list. -/
theorem c7_build_empty_iff (off : Int) (holidays : List CDate) :
    (build off holidays = .error .emptyHolidayList ↔ holidays = []) ∧
      (holidays ≠ [] → ∃ w, build off holidays = .ok w) := by
  constructor
  · constructor
    · intro hb
      cases holidays with
      | nil => rfl
      | cons h t =>
        rw [build_cons] at hb
        cases hb
    · intro he
      subst he
      rfl
  · intro hne
    cases holidays with
    | nil => exact absurd rfl hne
    | cons h t => exact ⟨builtIndex off h t, build_cons off h t⟩

/-- Witness for C7 at the empty list and a singleton list. -/
theorem c7_build_empty_iff_witness :
    build 0 ([] : List CDate) = .error .emptyHolidayList ∧
      ∃ w, build 0 [(⟨2022, 6, 5⟩ : CDate)] = .ok w :=
  ⟨(c7_build_empty_iff 0 []).1.mpr rfl,
    (c7_build_empty_iff 0 [⟨2022, 6, 5⟩]).2 (by decide)⟩

/-- C8: on a non-empty ascending holiday list, `build` succeeds with
`start_date` = January 1 of the first holiday's year and `end_date` =
December 31 of the last holiday's year, the first listed holiday being
minimal and the last maximal in the chronological order. -/
theorem c8_range (off : Int) (h : CDate) (t : List CDate)
    (hs : (h :: t).Pairwise (fun a b => numDaysFromCE a ≤ numDaysFromCE b)) :
    ∃ w, build off (h :: t) = .ok w ∧
      w.startDate = ⟨h.y, 1, 1⟩ ∧
      w.endDate = ⟨((h :: t).getLastD h).y, 12, 31⟩ ∧
      (∀ x ∈ h :: t, numDaysFromCE h ≤ numDaysFromCE x) ∧
      (∀ x ∈ h :: t, numDaysFromCE x ≤ numDaysFromCE ((h :: t).getLastD h)) := by
  refine ⟨builtIndex off h t, build_cons off h t, rfl, rfl, ?_, ?_⟩
  · intro x hx
    rcases List.mem_cons.mp hx with rfl | hx2
    · exact le_refl _
    · exact (List.pairwise_cons.mp hs).1 x hx2
  · exact pairwise_le_getLastD t h hs

/-- Witness for C8 at the repository's two-holiday test list. -/
theorem c8_range_witness :
    ∃ w, build (-(3 * 3600)) [(⟨2020, 6, 5⟩ : CDate), ⟨2021, 6, 5⟩] = .ok w ∧
      w.startDate = ⟨2020, 1, 1⟩ ∧
      w.endDate = ⟨2021, 12, 31⟩ ∧
      (∀ x ∈ [(⟨2020, 6, 5⟩ : CDate), ⟨2021, 6, 5⟩],
        numDaysFromCE ⟨2020, 6, 5⟩ ≤ numDaysFromCE x) ∧
      (∀ x ∈ [(⟨2020, 6, 5⟩ : CDate), ⟨2021, 6, 5⟩],
        numDaysFromCE x ≤ numDaysFromCE ⟨2021, 6, 5⟩) :=
  c8_range (-(3 * 3600)) ⟨2020, 6, 5⟩ [⟨2021, 6, 5⟩] (by decide)

/-- C9: an inverted time window (`from > to`) makes `current_time_between`
false at every time of day, so a successful `is_active` evaluation under
such a window always reports an inactive result. -/
theorem c9_inverted_window (w : WorkingDays) (md : Metadata) (nowDate : CDate)
    (nowTime : Nat) (f t : Nat)
    (hf : readTime md "fromTime" = .ok f) (ht : readTime md "toTime" = .ok t)
    (hinv : t < f) :
    currentTimeBetween f t nowTime = false ∧
      (∀ r, isActive w md nowDate nowTime = .ok r → r.result = false) := by
  have hctb : currentTimeBetween f t nowTime = false := by
    unfold currentTimeBetween
    rcases Nat.lt_or_ge nowTime f with hc | hc
    · have : ¬(f ≤ nowTime) := by omega
      simp [this]
    · have : ¬(nowTime ≤ t) := by omega
      simp [this]
  refine ⟨hctb, ?_⟩
  intro r hr
  rcases hn : readNthWorkingDayArg md with e | n <;>
    simp only [isActive, hn, hf, ht] at hr
  · cases hr
  · rcases hts : readTargetSize md with e | ts <;> simp only [hts] at hr
    · cases hr
    · rcases hcn : currentNthWorkingDay w nowDate with e | nth <;>
        simp only [hcn] at hr
      · cases hr
      · injection hr with hr
        rw [← hr]
        show (decide (n = nth) && currentTimeBetween f t nowTime) = false
        rw [hctb, Bool.and_false]

/-- Witness for C9 at a concrete inverted window over the 2022 index. -/
theorem c9_inverted_window_witness :
    currentTimeBetween 64800 21600 43200 = false ∧
      (∀ r, isActive c1Index c9Metadata ⟨2022, 6, 1⟩ 43200 = .ok r →
        r.result = false) :=
  c9_inverted_window c1Index c9Metadata ⟨2022, 6, 1⟩ 43200 64800 21600
    (by decide) (by decide) (by decide)

/-- C2 counterexample: a query with valid `nthWorkingDay` and `targetSize`
but no time window makes `is_active` fail with a missing-metadata error,
refuting the claim that the time window is optional. -/
theorem c2_counterexample :
    isActive c1Index c2Metadata ⟨2022, 6, 1⟩ 0 =
      .error (.invalidArgument "Missing required metadata `fromTime`.") := by
  decide

/-- C2 amended: `fromTime`/`toTime` are required by `is_active`; whenever the
ordinal read succeeds and `fromTime` is absent, the call fails with the
missing-`fromTime` invalid-argument error. -/
theorem c2_amended_missing_from (w : WorkingDays) (md : Metadata)
    (nowDate : CDate) (nowTime : Nat) (n : Nat)
    (hn : readNthWorkingDayArg md = .ok n) (hmiss : md "fromTime" = none) :
    isActive w md nowDate nowTime =
      .error (.invalidArgument "Missing required metadata `fromTime`.") := by
  have hf : readTime md "fromTime" =
      .error (.invalidArgument "Missing required metadata `fromTime`.") := by
    unfold readTime
    rw [hmiss]
    decide
  simp only [isActive, hn, hf]

/-- Witness for the amended C2 at a concrete query lacking `fromTime`. -/
theorem c2_amended_missing_from_witness :
    isActive c1Index c2MetadataW ⟨2022, 6, 1⟩ 0 =
      .error (.invalidArgument "Missing required metadata `fromTime`.") :=
  c2_amended_missing_from c1Index c2MetadataW ⟨2022, 6, 1⟩ 0 7 (by decide)
    (by decide)

/-- C3 counterexample: the metadata value `"0"` parses and is accepted by
`read_nth_working_day_arg` (it returns `Ok 0`), refuting the claim that
values outside 1–31 are always rejected. -/
theorem c3_counterexample : readNthWorkingDayArg c3MetadataZero = .ok 0 := by
  decide

/-- C3 amended: `read_nth_working_day_arg` accepts a present value exactly
when it parses as a `u8` (0–255) not exceeding 31 — so 0 is accepted — and
rejects values 32–255 and unparsable strings with the range error naming
`nthWorkingDay`. -/
theorem c3_amended_range (md : Metadata) (s : String)
    (hsome : md "nthWorkingDay" = some s) :
    (∀ n, parseU8 s = some n → n ≤ 31 → readNthWorkingDayArg md = .ok n) ∧
      (∀ n, parseU8 s = some n → 31 < n →
        readNthWorkingDayArg md = .error (.invalidArgument
          "Metadata `nthWorkingDay` should be a value between 1 and 31.")) ∧
      (parseU8 s = none →
        readNthWorkingDayArg md = .error (.invalidArgument
          "Metadata `nthWorkingDay` should be a value between 1 and 31.")) := by
  refine ⟨?_, ?_, ?_⟩
  · intro n hp hle
    simp only [readNthWorkingDayArg, hsome, hp]
    rw [if_pos hle]
  · intro n hp hgt
    simp only [readNthWorkingDayArg, hsome, hp]
    rw [if_neg (by omega)]
  · intro hp
    simp only [readNthWorkingDayArg, hsome, hp]

/-- Witness for the amended C3 at the values "32" and "jose" of the spec's
scenario, and at the accepted boundary value "31". -/
theorem c3_amended_range_witness :
    readNthWorkingDayArg c3Metadata32 = .error (.invalidArgument
      "Metadata `nthWorkingDay` should be a value between 1 and 31.") :=
  (c3_amended_range c3Metadata32 "32" (by decide)).2.1 32 (by decide) (by decide)

set_option maxRecDepth 100000 in
/-- C1: the index built with offset UTC-3 from the twelve 2022 holidays
returns, for June 1–30 of 2022 in order, exactly the sequence
1,2,3,3,3,4,5,6,7,8,8,8,9,10,11,11,12,12,12,13,14,15,16,17,17,17,18,19,20,21. -/
theorem c1_june_sequence :
    build (-(3 * 3600)) c1Holidays = .ok c1Index ∧
      (List.range 30).map (fun k => workingDaysMtd c1Index ⟨2022, 6, 1 + k⟩) =
        c1June.map Except.ok := by
  have he : c1Index = ⟨-(3 * 3600), ⟨2022, 1, 1⟩, ⟨2022, 12, 31⟩,
      numDaysFromCE ⟨2022, 1, 1⟩,
      processWorkingDays ⟨2022, 1, 1⟩ ⟨2022, 12, 31⟩ c1Holidays⟩ :=
    buildWithRange_sorted_eval (-(3 * 3600)) ⟨2022, 1, 1⟩ ⟨2022, 12, 31⟩
      c1Holidays (by decide)
  constructor
  · rfl
  · rw [he]
    decide

/-- C6: lookups on a built index fail with `DateOutOfRange` carrying exactly
the constructed bounds for every date strictly outside `[start_date,
end_date]`, succeed for every date inside, and never produce
`EmptyHolidayList`. -/
theorem c6_out_of_range (off : Int) (h : CDate) (t : List CDate)
    (hvh : ValidDate h) (w : WorkingDays) (hw : build off (h :: t) = .ok w) :
    (∀ d : CDate, numDaysFromCE d < numDaysFromCE w.startDate ∨
        numDaysFromCE w.endDate < numDaysFromCE d →
      workingDaysMtd w d = .error (.dateOutOfRange w.startDate w.endDate)) ∧
      (∀ d : CDate, numDaysFromCE w.startDate ≤ numDaysFromCE d →
          numDaysFromCE d ≤ numDaysFromCE w.endDate →
        ∃ n, workingDaysMtd w d = .ok n) ∧
      (∀ d : CDate, workingDaysMtd w d ≠ .error .emptyHolidayList) := by
  have hw2 : w = builtIndex off h t := by
    rw [build_cons] at hw
    injection hw with hw
    exact hw.symm
  subst hw2
  have hvs : ValidDate (atStartOfYear h) := atStartOfYear_valid hvh.1
  have hdata : (builtIndex off h t).data =
      processGo (numDaysFromCE (atEndOfYear ((h :: t).getLastD h)))
        (numDaysFromCE (atEndOfYear ((h :: t).getLastD h)) + 1 -
          numDaysFromCE (atStartOfYear h)) (atStartOfYear h) (atStartOfYear h).m 0
        (((h :: t).mergeSort dateLeB).filter
          (fun dt => decide (numDaysFromCE (atStartOfYear h) ≤ numDaysFromCE dt))) :=
    rfl
  have hlen : (builtIndex off h t).data.length =
      numDaysFromCE (builtIndex off h t).endDate + 1 -
        numDaysFromCE (builtIndex off h t).startDate := by
    rw [hdata, processGo_length _ _ _ _ _ _ hvs, Nat.min_self]
    rfl
  have hoffs : (builtIndex off h t).dataOffset =
      numDaysFromCE (builtIndex off h t).startDate := rfl
  refine ⟨?_, ?_, ?_⟩
  · intro d hd
    have hng : ¬((builtIndex off h t).dataOffset ≤ numDaysFromCE d ∧
        numDaysFromCE d < (builtIndex off h t).dataOffset +
          (builtIndex off h t).data.length) := by
      rw [hoffs, hlen]
      rcases hd with hd | hd <;> omega
    unfold workingDaysMtd
    rw [if_neg hng]
  · intro d hd1 hd2
    have hg : (builtIndex off h t).dataOffset ≤ numDaysFromCE d ∧
        numDaysFromCE d < (builtIndex off h t).dataOffset +
          (builtIndex off h t).data.length := by
      rw [hoffs, hlen]
      omega
    refine ⟨(builtIndex off h t).data.getD
        (numDaysFromCE d - (builtIndex off h t).dataOffset) 0, ?_⟩
    unfold workingDaysMtd
    rw [if_pos hg]
  · intro d
    unfold workingDaysMtd
    split
    · intro hc
      cases hc
    · intro hc
      injection hc with hc
      cases hc

/-- Witness for C6 at the repository's out-of-range test index. -/
theorem c6_out_of_range_witness :
    (∀ d : CDate,
        numDaysFromCE d <
            numDaysFromCE (builtIndex (-(3 * 3600)) ⟨2020, 6, 5⟩
              [⟨2021, 6, 5⟩]).startDate ∨
          numDaysFromCE (builtIndex (-(3 * 3600)) ⟨2020, 6, 5⟩
              [⟨2021, 6, 5⟩]).endDate < numDaysFromCE d →
      workingDaysMtd (builtIndex (-(3 * 3600)) ⟨2020, 6, 5⟩ [⟨2021, 6, 5⟩]) d =
        .error (.dateOutOfRange
          (builtIndex (-(3 * 3600)) ⟨2020, 6, 5⟩ [⟨2021, 6, 5⟩]).startDate
          (builtIndex (-(3 * 3600)) ⟨2020, 6, 5⟩ [⟨2021, 6, 5⟩]).endDate)) ∧
      (∀ d : CDate,
          numDaysFromCE (builtIndex (-(3 * 3600)) ⟨2020, 6, 5⟩
              [⟨2021, 6, 5⟩]).startDate ≤ numDaysFromCE d →
          numDaysFromCE d ≤ numDaysFromCE (builtIndex (-(3 * 3600)) ⟨2020, 6, 5⟩
              [⟨2021, 6, 5⟩]).endDate →
        ∃ n, workingDaysMtd (builtIndex (-(3 * 3600)) ⟨2020, 6, 5⟩
          [⟨2021, 6, 5⟩]) d = .ok n) ∧
      (∀ d : CDate, workingDaysMtd (builtIndex (-(3 * 3600)) ⟨2020, 6, 5⟩
        [⟨2021, 6, 5⟩]) d ≠ .error .emptyHolidayList) :=
  c6_out_of_range (-(3 * 3600)) ⟨2020, 6, 5⟩ [⟨2021, 6, 5⟩] (by decide) _
    (build_cons _ _ _)

/-- C4: within one calendar month the lookup of a built index is monotone
non-decreasing, and on the first day of any month in range it returns 1 when
that day is a working day and 0 otherwise. Stated for an index built from an
ascending, duplicate-free list of valid holiday dates (the shape the spec's
HolidayCalendar guarantees). -/
theorem c4_monotone_reset (off : Int) (h : CDate) (t : List CDate)
    (hv : ∀ x ∈ h :: t, ValidDate x)
    (hs : (h :: t).Pairwise (fun a b => numDaysFromCE a < numDaysFromCE b))
    (w : WorkingDays) (hw : build off (h :: t) = .ok w) :
    (∀ d1 d2 : CDate, ValidDate d1 → ValidDate d2 →
      numDaysFromCE w.startDate ≤ numDaysFromCE d1 →
      numDaysFromCE d2 ≤ numDaysFromCE w.endDate →
      numDaysFromCE d1 ≤ numDaysFromCE d2 →
      d1.y = d2.y → d1.m = d2.m →
      ∃ a b, workingDaysMtd w d1 = .ok a ∧ workingDaysMtd w d2 = .ok b ∧ a ≤ b) ∧
      (∀ d : CDate, ValidDate d → d.d = 1 →
        numDaysFromCE w.startDate ≤ numDaysFromCE d →
        numDaysFromCE d ≤ numDaysFromCE w.endDate →
        workingDaysMtd w d = .ok (if IsWorkingDay (h :: t) d then 1 else 0)) := by
  have hw2 : w = builtIndex off h t := by
    rw [build_cons] at hw
    injection hw with hw
    exact hw.symm
  subst hw2
  have hvh := hv h (List.mem_cons_self h t)
  have hvs : ValidDate (builtIndex off h t).startDate := atStartOfYear_valid hvh.1
  constructor
  · intro d1 d2 hv1 hv2 hr1 hr2 hle hy hm
    have hr1' : numDaysFromCE (builtIndex off h t).startDate ≤ numDaysFromCE d2 :=
      le_trans hr1 hle
    have hr2' : numDaysFromCE d1 ≤ numDaysFromCE (builtIndex off h t).endDate :=
      le_trans hle hr2
    have h1 := builtIndex_mtd off h t hv hs d1 hr1 hr2'
    have h2 := builtIndex_mtd off h t hv hs d2 hr1' hr2
    refine ⟨_, _, h1, h2, ?_⟩
    apply specTable_mono _ _ _ _ _ hvs
      (numDaysFromCE d2 - numDaysFromCE (builtIndex off h t).startDate)
      (numDaysFromCE d1 - numDaysFromCE (builtIndex off h t).startDate)
      (by omega) ?_ ?_
    · rw [specTable_length _ _ _ _ _ hvs, Nat.min_self]
      omega
    · rw [addDays_of_numDays hvs hv1 hr1, addDays_of_numDays hvs hv2 hr1']
      unfold monthIdx
      rw [hy, hm]
  · intro d hvd hdd hr1 hr2
    have hmtd := builtIndex_mtd off h t hv hs d hr1 hr2
    rw [hmtd]
    have hse : numDaysFromCE (builtIndex off h t).startDate ≤
        numDaysFromCE (builtIndex off h t).endDate := le_trans hr1 hr2
    have hid : addDays (builtIndex off h t).startDate
        (numDaysFromCE d - numDaysFromCE (builtIndex off h t).startDate) = d :=
      addDays_of_numDays hvs hvd hr1
    rcases Nat.eq_zero_or_pos
        (numDaysFromCE d - numDaysFromCE (builtIndex off h t).startDate) with hj | hj
    · have hds : d = (builtIndex off h t).startDate :=
        numDays_inj hvd hvs (by omega)
      rw [hj, specTable_head _ _ _ _ _ (by omega) hse, hds, Nat.zero_add]
    · obtain ⟨k, hk⟩ : ∃ k, numDaysFromCE d -
          numDaysFromCE (builtIndex off h t).startDate = k + 1 :=
        ⟨numDaysFromCE d - numDaysFromCE (builtIndex off h t).startDate - 1, by omega⟩
      rw [hk] at hid
      rw [hk, specTable_step _ _ _ _ _ k hvs
        (by rw [specTable_length _ _ _ _ _ hvs, Nat.min_self]; omega)]
      rw [hid, if_pos hdd, Nat.zero_add]

set_option maxRecDepth 100000 in
/-- Witness for C4 at a singleton holiday list and two March 2022 dates. -/
theorem c4_monotone_reset_witness :
    (∃ a b, workingDaysMtd (builtIndex 0 ⟨2022, 6, 5⟩ []) ⟨2022, 3, 1⟩ = .ok a ∧
      workingDaysMtd (builtIndex 0 ⟨2022, 6, 5⟩ []) ⟨2022, 3, 15⟩ = .ok b ∧
      a ≤ b) ∧
      workingDaysMtd (builtIndex 0 ⟨2022, 6, 5⟩ []) ⟨2022, 4, 1⟩ =
        .ok (if IsWorkingDay [⟨2022, 6, 5⟩] ⟨2022, 4, 1⟩ then 1 else 0) := by
  have hc := c4_monotone_reset 0 ⟨2022, 6, 5⟩ [] (by decide) (by decide) _
    (build_cons 0 ⟨2022, 6, 5⟩ [])
  exact ⟨hc.1 ⟨2022, 3, 1⟩ ⟨2022, 3, 15⟩ (by decide) (by decide) (by decide)
      (by decide) (by decide) rfl rfl,
    hc.2 ⟨2022, 4, 1⟩ (by decide) rfl (by decide) (by decide)⟩

set_option maxRecDepth 100000 in
/-- C5 counterexample: on the 2022 index, 2022-03-01 is an in-range,
non-weekend holiday whose most recent working day strictly before it is
2022-02-25 (the 26th and 27th are the weekend and the 28th is a holiday),
yet the lookups differ: 0 versus 19 — the claimed equality with the previous
working day fails across a month boundary. -/
theorem c5_counterexample :
    (⟨2022, 3, 1⟩ : CDate) ∈ c1Holidays ∧ isWeekend ⟨2022, 3, 1⟩ = false ∧
      isWeekend ⟨2022, 2, 26⟩ = true ∧ isWeekend ⟨2022, 2, 27⟩ = true ∧
      (⟨2022, 2, 28⟩ : CDate) ∈ c1Holidays ∧
      isWeekend ⟨2022, 2, 25⟩ = false ∧ (⟨2022, 2, 25⟩ : CDate) ∉ c1Holidays ∧
      workingDaysMtd c1Index ⟨2022, 2, 25⟩ = .ok 19 ∧
      workingDaysMtd c1Index ⟨2022, 3, 1⟩ = .ok 0 := by
  have he : c1Index = ⟨-(3 * 3600), ⟨2022, 1, 1⟩, ⟨2022, 12, 31⟩,
      numDaysFromCE ⟨2022, 1, 1⟩,
      processWorkingDays ⟨2022, 1, 1⟩ ⟨2022, 12, 31⟩ c1Holidays⟩ :=
    buildWithRange_sorted_eval (-(3 * 3600)) ⟨2022, 1, 1⟩ ⟨2022, 12, 31⟩
      c1Holidays (by decide)
  rw [he]
  decide

/-- C5 amended: on an index built from an ascending duplicate-free valid
holiday list, the ordinal does not advance on a non-working date d in range:
if d is the first day of its month the lookup is 0, and otherwise it equals
the lookup of the previous calendar day — hence it equals the lookup of the
most recent working day strictly before d whenever that day falls in d's own
month, while across a month boundary the lookup resets to 0 instead. -/
theorem c5_no_advance (off : Int) (h : CDate) (t : List CDate)
    (hv : ∀ x ∈ h :: t, ValidDate x)
    (hs : (h :: t).Pairwise (fun a b => numDaysFromCE a < numDaysFromCE b))
    (w : WorkingDays) (hw : build off (h :: t) = .ok w) :
    ∀ d : CDate, ValidDate d → ¬ IsWorkingDay (h :: t) d →
      numDaysFromCE w.startDate ≤ numDaysFromCE d →
      numDaysFromCE d ≤ numDaysFromCE w.endDate →
      (d.d = 1 → workingDaysMtd w d = .ok 0) ∧
      (2 ≤ d.d → workingDaysMtd w d = workingDaysMtd w ⟨d.y, d.m, d.d - 1⟩) := by
  have hw2 : w = builtIndex off h t := by
    rw [build_cons] at hw
    injection hw with hw
    exact hw.symm
  subst hw2
  have hvh := hv h (List.mem_cons_self h t)
  have hvs : ValidDate (builtIndex off h t).startDate := atStartOfYear_valid hvh.1
  intro d hvd hnw hr1 hr2
  have hse : numDaysFromCE (builtIndex off h t).startDate ≤
      numDaysFromCE (builtIndex off h t).endDate := le_trans hr1 hr2
  have hmtd := builtIndex_mtd off h t hv hs d hr1 hr2
  have hid : addDays (builtIndex off h t).startDate
      (numDaysFromCE d - numDaysFromCE (builtIndex off h t).startDate) = d :=
    addDays_of_numDays hvs hvd hr1
  constructor
  · intro hdd
    rw [hmtd]
    rcases Nat.eq_zero_or_pos
        (numDaysFromCE d - numDaysFromCE (builtIndex off h t).startDate) with hj | hj
    · have hds : d = (builtIndex off h t).startDate :=
        numDays_inj hvd hvs (by omega)
      rw [hj, specTable_head _ _ _ _ _ (by omega) hse, hds.symm, if_neg hnw]
    · obtain ⟨k, hk⟩ : ∃ k, numDaysFromCE d -
          numDaysFromCE (builtIndex off h t).startDate = k + 1 :=
        ⟨numDaysFromCE d - numDaysFromCE (builtIndex off h t).startDate - 1, by omega⟩
      rw [hk] at hid
      rw [hk, specTable_step _ _ _ _ _ k hvs
        (by rw [specTable_length _ _ _ _ _ hvs, Nat.min_self]; omega)]
      rw [hid, if_pos hdd, if_neg hnw]
  · intro hdd
    have hins : numDaysFromCE (builtIndex off h t).startDate < numDaysFromCE d := by
      rcases Nat.lt_or_ge (numDaysFromCE (builtIndex off h t).startDate)
          (numDaysFromCE d) with hc | hc
      · exact hc
      · exfalso
        have : numDaysFromCE d = numDaysFromCE (builtIndex off h t).startDate := by
          omega
        have hds : d = (builtIndex off h t).startDate := numDays_inj hvd hvs this
        have : (builtIndex off h t).startDate.d = 1 := rfl
        rw [hds] at hdd
        omega
    have hvprev : ValidDate ⟨d.y, d.m, d.d - 1⟩ := by
      obtain ⟨a1, a2, a3, a4, a5⟩ := hvd
      refine ⟨a1, a2, a3, ?_, ?_⟩
      · show 1 ≤ d.d - 1
        omega
      · show d.d - 1 ≤ daysInMonth d.y d.m
        omega
    have hprevN : numDaysFromCE ⟨d.y, d.m, d.d - 1⟩ = numDaysFromCE d - 1 := by
      simp only [numDaysFromCE_here]
      omega
    have hrp1 : numDaysFromCE (builtIndex off h t).startDate ≤
        numDaysFromCE ⟨d.y, d.m, d.d - 1⟩ := by
      rw [hprevN]
      omega
    have hrp2 : numDaysFromCE ⟨d.y, d.m, d.d - 1⟩ ≤
        numDaysFromCE (builtIndex off h t).endDate := by
      rw [hprevN]
      omega
    have hmtdp := builtIndex_mtd off h t hv hs ⟨d.y, d.m, d.d - 1⟩ hrp1 hrp2
    rw [hmtd, hmtdp]
    obtain ⟨k, hk⟩ : ∃ k, numDaysFromCE d -
        numDaysFromCE (builtIndex off h t).startDate = k + 1 :=
      ⟨numDaysFromCE d - numDaysFromCE (builtIndex off h t).startDate - 1, by omega⟩
    rw [hk] at hid
    have hkp : numDaysFromCE ⟨d.y, d.m, d.d - 1⟩ -
        numDaysFromCE (builtIndex off h t).startDate = k := by
      rw [hprevN]
      omega
    rw [hk, hkp, specTable_step _ _ _ _ _ k hvs
      (by rw [specTable_length _ _ _ _ _ hvs, Nat.min_self]; omega)]
    rw [hid, if_neg (by omega), if_neg hnw, Nat.add_zero]

/-- Witness for the amended C5 at the 2022 holiday 2022-06-16. -/
theorem c5_no_advance_witness :
    ((16 : Nat) = 1 → workingDaysMtd (builtIndex (-(3 * 3600)) ⟨2022, 1, 1⟩
      c1Holidays.tail) ⟨2022, 6, 16⟩ = .ok 0) ∧
      (2 ≤ (16 : Nat) → workingDaysMtd (builtIndex (-(3 * 3600)) ⟨2022, 1, 1⟩
        c1Holidays.tail) ⟨2022, 6, 16⟩ =
        workingDaysMtd (builtIndex (-(3 * 3600)) ⟨2022, 1, 1⟩ c1Holidays.tail)
          ⟨2022, 6, 15⟩) :=
  c5_no_advance (-(3 * 3600)) ⟨2022, 1, 1⟩ c1Holidays.tail (by decide) (by decide)
    _ (build_cons _ _ _) ⟨2022, 6, 16⟩ (by decide) (by decide) (by decide)
    (by decide)

/-- C10: a duplicated holiday silently disables all later holidays. Once the
head of the holiday iterator is a date already strictly before the current
day, it never matches again, so the rest of the iterator is irrelevant
(first conjunct); consequently an index built by `build_with_range` from a
list starting with a duplicated first day has a table independent of every
later holiday (second conjunct); concretely, with holidays
2022-06-02 (twice) and 2022-06-16 over June 2022, the non-weekend listed
holiday 2022-06-16 is counted as a working day (lookup steps from 10 to 11),
whereas without the duplicate it is excluded (lookup stays at 10). -/
theorem c10_duplicate_holiday :
    (∀ (endN fuel : Nat) (cur : CDate) (cm wd : Nat) (d : CDate)
        (t1 t2 : List CDate), ValidDate cur →
      numDaysFromCE d < numDaysFromCE cur →
      processGo endN fuel cur cm wd (d :: t1) =
        processGo endN fuel cur cm wd (d :: t2)) ∧
      (∀ (off : Int) (s e : CDate) (rest1 rest2 : List CDate), ValidDate s →
        (s :: rest1).Pairwise (fun a b => numDaysFromCE a < numDaysFromCE b) →
        (s :: rest2).Pairwise (fun a b => numDaysFromCE a < numDaysFromCE b) →
        buildWithRange off s e (s :: s :: rest1) =
          buildWithRange off s e (s :: s :: rest2)) ∧
      (workingDaysMtd c10DupIndex ⟨2022, 6, 15⟩ = .ok 10 ∧
        workingDaysMtd c10DupIndex ⟨2022, 6, 16⟩ = .ok 11 ∧
        isWeekend ⟨2022, 6, 16⟩ = false ∧
        (⟨2022, 6, 16⟩ : CDate) ∈ c10DupHolidays ∧
        workingDaysMtd c10NoDupIndex ⟨2022, 6, 15⟩ = .ok 10 ∧
        workingDaysMtd c10NoDupIndex ⟨2022, 6, 16⟩ = .ok 10) := by
  refine ⟨processGo_stuck, ?_, ?_⟩
  · intro off s e rest1 rest2 hvs hp1 hp2
    have hsorted : ∀ rest : List CDate,
        (s :: rest).Pairwise (fun a b => numDaysFromCE a < numDaysFromCE b) →
        (s :: s :: rest).Pairwise (fun a b => dateLeB a b = true) := by
      intro rest hp
      rcases List.pairwise_cons.mp hp with ⟨hall, htail⟩
      apply List.pairwise_cons.mpr
      constructor
      · intro x hx
        rcases List.mem_cons.mp hx with rfl | hx2
        · unfold dateLeB
          simp
        · unfold dateLeB
          have := hall x hx2
          simp only [decide_eq_true_eq]
          omega
      · apply List.pairwise_cons.mpr
        refine ⟨?_, htail.imp ?_⟩
        · intro x hx
          unfold dateLeB
          have := hall x hx
          simp only [decide_eq_true_eq]
          omega
        · intro a b hab
          unfold dateLeB
          simp only [decide_eq_true_eq]
          omega
    rw [buildWithRange_sorted_eval off s e _ (hsorted rest1 hp1),
      buildWithRange_sorted_eval off s e _ (hsorted rest2 hp2)]
    have hdata : processWorkingDays s e (s :: s :: rest1) =
        processWorkingDays s e (s :: s :: rest2) := by
      unfold processWorkingDays
      have hfil : ∀ rest : List CDate,
          (s :: s :: rest).filter
              (fun dt => decide (numDaysFromCE s ≤ numDaysFromCE dt)) =
            s :: s :: rest.filter
              (fun dt => decide (numDaysFromCE s ≤ numDaysFromCE dt)) := by
        intro rest
        rw [List.filter_cons_of_pos (by simp), List.filter_cons_of_pos (by simp)]
      rw [hfil rest1, hfil rest2]
      generalize numDaysFromCE e + 1 - numDaysFromCE s = fuel
      rcases fuel with _ | k
      · rfl
      · rw [processGo, processGo]
        by_cases hle : numDaysFromCE s ≤ numDaysFromCE e
        case neg => rw [if_neg hle, if_neg hle]
        case pos =>
        rw [if_pos hle, if_pos hle]
        simp only [List.head?_cons, List.tail_cons]
        rw [if_pos trivial, if_pos trivial]
        congr 1
        apply processGo_stuck
        · exact nextDay_valid hvs
        · rw [numDaysFromCE_nextDay hvs]
          omega
    rw [hdata]
  · have hd : c10DupIndex = ⟨0, ⟨2022, 6, 1⟩, ⟨2022, 6, 30⟩,
        numDaysFromCE ⟨2022, 6, 1⟩,
        processWorkingDays ⟨2022, 6, 1⟩ ⟨2022, 6, 30⟩ c10DupHolidays⟩ :=
      buildWithRange_sorted_eval 0 ⟨2022, 6, 1⟩ ⟨2022, 6, 30⟩ c10DupHolidays
        (by decide)
    have hn : c10NoDupIndex = ⟨0, ⟨2022, 6, 1⟩, ⟨2022, 6, 30⟩,
        numDaysFromCE ⟨2022, 6, 1⟩,
        processWorkingDays ⟨2022, 6, 1⟩ ⟨2022, 6, 30⟩
          [⟨2022, 6, 2⟩, ⟨2022, 6, 16⟩]⟩ :=
      buildWithRange_sorted_eval 0 ⟨2022, 6, 1⟩ ⟨2022, 6, 30⟩
        [⟨2022, 6, 2⟩, ⟨2022, 6, 16⟩] (by decide)
    rw [hd, hn]
    decide

/-- Witness for C10's general conjuncts at concrete loop states and lists. -/
theorem c10_duplicate_holiday_witness :
    processGo 738400 5 ⟨2022, 6, 3⟩ 6 1 [⟨2022, 6, 2⟩, ⟨2022, 6, 16⟩] =
      processGo 738400 5 ⟨2022, 6, 3⟩ 6 1 [⟨2022, 6, 2⟩] ∧
      buildWithRange 0 ⟨2022, 6, 1⟩ ⟨2022, 6, 30⟩
          [⟨2022, 6, 1⟩, ⟨2022, 6, 1⟩, ⟨2022, 6, 16⟩] =
        buildWithRange 0 ⟨2022, 6, 1⟩ ⟨2022, 6, 30⟩
          [⟨2022, 6, 1⟩, ⟨2022, 6, 1⟩] :=
  ⟨c10_duplicate_holiday.1 738400 5 ⟨2022, 6, 3⟩ 6 1 ⟨2022, 6, 2⟩
      [⟨2022, 6, 16⟩] [] (by decide) (by decide),
    c10_duplicate_holiday.2.1 0 ⟨2022, 6, 1⟩ ⟨2022, 6, 30⟩ [⟨2022, 6, 16⟩] []
      (by decide) (by decide) (by decide)⟩

end WDS
